import Mathlib

/-!
Verification of the infinite-undo versioning core
(`src/server/services/infinite_undo.py`) against its specification.

The service is embedded shallowly:

* the live filesystem and the content-addressed blob store are association
  lists from path / storage location to file content (a `String` standing
  for the file's bytes);
* the `file_versions` catalog is a list of rows in insertion order; each
  SQL query of the source is translated to a pure function on that list;
* timestamps are naturals supplied at call time, mirroring the database
  assigning insert-time `now()` to each row;
* SHA-256 hexdigests are idealized as an injective function producing a
  non-empty string (`sha256Hex`): the spec itself reasons under the
  hash's collision resistance, and a real hexdigest is never the empty
  string, so Python's truthiness test on the digest is `Option.isSome`.
-/

namespace InfiniteUndo

/-- Idealized SHA-256 hexdigest of file content: injective and non-empty
(models `hashlib.sha256(...).hexdigest()` in `_compute_hash`). -/
def sha256Hex (content : String) : String := "#" ++ content

/-- One row of the `file_versions` catalog, with the columns used by the
service.  `metadata` models the only metadata the service ever writes,
the `restored_from_version` value of a restore row (`none` = SQL NULL). -/
structure Row where
  id : Nat
  file_path : String
  version_number : Int
  operation : String
  content_hash : Option String
  storage_location : Option String
  file_size : Nat
  timestamp : Nat
  metadata : Option Int
deriving DecidableEq

/-- Whole-system state: live files, content-addressed blob store,
catalog rows in insertion order, and the id counter standing for the
database assigning fresh row ids. -/
structure State where
  files : List (String × String)
  blobs : List (String × String)
  catalog : List Row
  next_id : Nat
deriving DecidableEq

/-- The empty system: no files, no blobs, empty catalog. -/
def initState : State := { files := [], blobs := [], catalog := [], next_id := 0 }

/-- Query `SELECT ... WHERE file_path = $1` : the rows of one path, in
insertion order. -/
def rowsFor (catalog : List Row) (path : String) : List Row :=
  catalog.filter (fun r => r.file_path == path)

/-- First row attaining the maximal key `f` — the deterministic
refinement of `ORDER BY <f> DESC LIMIT 1` (SQL fixes no order among
rows with equal keys; this picks the first-inserted maximal row). -/
def argmaxStep (f : Row → Int) (acc : Option Row) (r : Row) : Option Row :=
  match acc with
  | none => some r
  | some m => if f m < f r then some r else some m

def argmaxBy (f : Row → Int) (l : List Row) : Option Row :=
  l.foldl (argmaxStep f) none

/-- Query `SELECT COALESCE(MAX(version_number), 0) FROM file_versions WHERE
file_path = $1` (from `record_version`). -/
def maxVersionFor (catalog : List Row) (path : String) : Int :=
  match (rowsFor catalog path).map Row.version_number with
  | [] => 0
  | v :: vs => vs.foldl max v

/-- Model of `_compute_hash`: digest of the live file's content, `none` when the
file cannot be read (here: does not exist). -/
def compute_hash (files : List (String × String)) (path : String) : Option String :=
  (files.lookup path).map sha256Hex

/-- The configured storage root (`~/cognitive-exocortex/data/versions`). -/
def storage_root : String := "~/cognitive-exocortex/data/versions"

/-- Model of `_get_storage_path`: content-addressed location — the first two
characters of the digest as a shard directory, then the full digest. -/
def get_storage_path (content_hash : String) : String :=
  storage_root ++ "/" ++ content_hash.take 2 ++ "/" ++ content_hash

/-- The dedup query of `record_version`:
`SELECT id FROM file_versions WHERE file_path = $1 AND content_hash = $2
ORDER BY version_number DESC LIMIT 1`.
A SQL NULL digest (`content_hash = NULL`) matches no row. -/
def dedupExisting (catalog : List Row) (path : String) (h : Option String) : Option Nat :=
  match h with
  | none => none
  | some hv =>
    (argmaxBy (fun r => r.version_number)
      (catalog.filter (fun r => r.file_path == path && r.content_hash == some hv))).map
      (fun r => r.id)

/-- Model of `record_version(file_path, operation, metadata)` at time `now`.
Returns the version id (an asyncpg UUID in the source, here the row id;
a UUID object is always truthy, so `if existing` is `Option.isSome`). -/
def record_version (st : State) (file_path : String) (operation : String)
    (metadata : Option Int) (now : Nat) : Option Nat × State :=
  let content_hash := compute_hash st.files file_path
  let file_size := match st.files.lookup file_path with
    | some c => c.length
    | none => 0
  let existing := dedupExisting st.catalog file_path content_hash
  if existing.isSome && !(operation == "delete" || operation == "rename") then
    (existing, st)
  else
    let next_version := maxVersionFor st.catalog file_path + 1
    let stored : Option String × List (String × String) :=
      match content_hash, st.files.lookup file_path with
      | some hv, some content =>
        let loc := get_storage_path hv
        if (st.blobs.lookup loc).isSome then (some loc, st.blobs)
        else (some loc, (loc, content) :: st.blobs)
      | _, _ => (none, st.blobs)
    let row : Row :=
      { id := st.next_id, file_path := file_path, version_number := next_version,
        operation := operation, content_hash := content_hash,
        storage_location := stored.1, file_size := file_size,
        timestamp := now, metadata := metadata }
    (some st.next_id,
     { st with catalog := st.catalog ++ [row], blobs := stored.2,
               next_id := st.next_id + 1 })

/-- The response structure of a restore call (`UndoResponse`). -/
structure UndoResponse where
  success : Bool
  file_path : String
  restored_version : Int
  message : String
deriving DecidableEq

/-- Python truthiness of the `Optional[int]` argument `target_version`:
`None` and `0` are falsy. -/
def pyTruthy : Option Int → Bool
  | none => false
  | some v => v != 0

/-- Rows of `path` with `timestamp <= $2` — the candidate pool of the
timestamp selector's query. -/
def tsQualifying (catalog : List Row) (path : String) (t : Nat) : List Row :=
  catalog.filter (fun r => r.file_path == path && decide (r.timestamp ≤ t))

/-- All rows a conforming SQL engine may return for
`... WHERE file_path = $1 AND timestamp <= $2 ORDER BY timestamp DESC
LIMIT 1`: the qualifying rows attaining the maximal timestamp (the
query states no tie-break among them). -/
def tsCandidates (catalog : List Row) (path : String) (t : Nat) : List Row :=
  let pool := tsQualifying catalog path t
  pool.filter (fun r => pool.all (fun s => decide (s.timestamp ≤ r.timestamp)))

/-- Deterministic refinement of the timestamp-selector query used by the
executable model: the first-inserted row with maximal timestamp. -/
def tsResolve (catalog : List Row) (path : String) (t : Nat) : Option Row :=
  argmaxBy (fun r => (r.timestamp : Int)) (tsQualifying catalog path t)

/-- The implicit selector's query: `ORDER BY version_number DESC
OFFSET 1 LIMIT 1` — the second-highest-versioned row of the path. -/
def prevResolve (catalog : List Row) (path : String) : Option Row :=
  let l := rowsFor catalog path
  match argmaxBy (fun r => r.version_number) l with
  | none => none
  | some m => argmaxBy (fun r => r.version_number) (l.erase m)

/-- Selector resolution of `restore_version`: `if target_version: ...
elif target_timestamp: ... else: ...` (a datetime is always truthy). -/
def resolveRow (catalog : List Row) (path : String)
    (target_version : Option Int) (target_timestamp : Option Nat) : Option Row :=
  if pyTruthy target_version then
    catalog.find? (fun r =>
      r.file_path == path && r.version_number == target_version.getD 0)
  else
    match target_timestamp with
    | some t => tsResolve catalog path t
    | none => prevResolve catalog path

/-- Content of the resolved row's blob, if any: `storage_location` truthy
(a non-empty path, here `isSome`) and the blob present on disk. -/
def blobContent (st : State) (row : Row) : Option String :=
  match row.storage_location with
  | some loc => st.blobs.lookup loc
  | none => none

/-- Model of `restore_version(file_path, target_version, target_timestamp)` at
time `now`.  On the success path it records a `pre_restore` version of
the live file, overwrites the live file with the blob's content, and
records a `restore` version carrying `restored_from_version`. -/
def restore_version (st : State) (file_path : String)
    (target_version : Option Int) (target_timestamp : Option Nat) (now : Nat) :
    UndoResponse × State :=
  match resolveRow st.catalog file_path target_version target_timestamp with
  | none =>
    ({ success := false, file_path := file_path, restored_version := 0,
       message := "No version found to restore" }, st)
  | some row =>
    match blobContent st row with
    | some content =>
      let st1 := (record_version st file_path "pre_restore" none now).2
      let st2 := { st1 with files := (file_path, content) :: st1.files }
      let st3 := (record_version st2 file_path "restore" (some row.version_number) now).2
      ({ success := true, file_path := file_path,
         restored_version := row.version_number,
         message := "Restored to version " ++ toString row.version_number }, st3)
    | none =>
      ({ success := false, file_path := file_path,
         restored_version := row.version_number,
         message := "Version content not found in storage" }, st)

/-- One entry of `time_travel`'s returned file list. -/
structure TTEntry where
  file_path : String
  version : Int
  size : Nat
  timestamp : Nat
deriving DecidableEq

/-- The returned dictionary of `time_travel`. -/
structure TimeTravelResult where
  directory : String
  as_of : Nat
  files : List TTEntry
  file_count : Nat
deriving DecidableEq

/-- Rows matched by the executed time-travel query:
`WHERE file_path LIKE $1 AND timestamp <= $2` with pattern
`f"{directory}%"`, i.e. path starts with the directory string. -/
def ttQualifying (catalog : List Row) (directory : String) (t : Nat) : List Row :=
  catalog.filter (fun r =>
    directory.data.isPrefixOf r.file_path.data && decide (r.timestamp ≤ t))

/-- Model of `time_travel(directory, target_time)` — the executed (simplified)
query: `SELECT DISTINCT ON (file_path) ... ORDER BY file_path,
version_number DESC`; per path the highest-versioned qualifying row,
output ordered by path. -/
def time_travel (catalog : List Row) (directory : String) (target_time : Nat) :
    TimeTravelResult :=
  let pool := ttQualifying catalog directory target_time
  let paths := List.insertionSort (· ≤ ·) (pool.map (fun r => r.file_path)).dedup
  let files := paths.filterMap (fun p =>
    (argmaxBy (fun r => r.version_number)
        (pool.filter (fun r => r.file_path == p))).map
      (fun r => ({ file_path := r.file_path, version := r.version_number,
                   size := r.file_size, timestamp := r.timestamp } : TTEntry)))
  { directory := directory, as_of := target_time,
    files := files, file_count := files.length }

/-- Eligibility test of `cleanup_old_versions`'s delete query:
`timestamp < $1 AND version_number < (SELECT MAX(version_number) - $2
FROM file_versions v2 WHERE v2.file_path = file_versions.file_path)`,
evaluated against the pre-delete catalog snapshot. -/
def eligibleForDeletion (catalog : List Row) (cutoff : Nat)
    (max_versions_per_file : Int) (r : Row) : Bool :=
  decide (r.timestamp < cutoff) &&
  decide (r.version_number < maxVersionFor catalog r.file_path - max_versions_per_file)

/-- Model of `cleanup_old_versions(days_to_keep, max_versions_per_file)` at time
`now`: `cutoff_date = now - timedelta(days=days_to_keep)`; deletes the
rows of the `to_delete` CTE by id and returns the deleted count. -/
def cleanup_old_versions (st : State) (now days_to_keep : Nat)
    (max_versions_per_file : Int) : Nat × State :=
  let cutoff := now - days_to_keep
  let to_delete := st.catalog.filter (eligibleForDeletion st.catalog cutoff max_versions_per_file)
  let remaining := st.catalog.filter (fun r =>
    !((to_delete.map (fun d => d.id)).contains r.id))
  (to_delete.length, { st with catalog := remaining })


/-- Write content `c` to the live file `p` (a filesystem save), then
record it: the unit step every recorded file-system event consists of. -/
def record_after_write (st : State) (p op c : String) (t : Nat) : State :=
  (record_version { st with files := (p, c) :: st.files } p op none t).2

/-- One "save then record a modify" step for a fixed path. -/
def recordStep (path : String) (st : State) (ev : String × Nat) : State :=
  record_after_write st path "modify" ev.1 ev.2

/-- A sequence of save-then-record events for a fixed path. -/
def recordMany (path : String) (st : State) (evs : List (String × Nat)) : State :=
  evs.foldl (recordStep path) st

/-- The catalog row `record_version` inserts for the `k`-th fresh-content
event `(c, t)` of a path (ids and version numbers count from the start). -/
def mkRow (path : String) (k : Nat) (c : String) (t : Nat) : Row :=
  { id := k, file_path := path, version_number := (k : Int) + 1,
    operation := "modify", content_hash := some (sha256Hex c),
    storage_location := some (get_storage_path (sha256Hex c)),
    file_size := c.length, timestamp := t, metadata := none }

/-- The catalog produced by a run of fresh-content events starting after
`k` earlier rows. -/
def expectedRows (path : String) (k : Nat) : List (String × Nat) → List Row
  | [] => []
  | (c, t) :: rest => mkRow path k c t :: expectedRows path (k + 1) rest

/-- Scenario state: file `a` saved with content `X` and recorded. -/
def stV1 : State :=
  record_after_write initState "a" "create" "X" 1

/-- Scenario state: file `a` then saved with content `Y` and recorded —
two catalog versions, live file `Y`. -/
def stV2 : State :=
  record_after_write stV1 "a" "modify" "Y" 2

/-- A catalog row: version 1 of path `p`, content digest `#A`. -/
def rowA : Row :=
  { id := 0, file_path := "p", version_number := 1, operation := "create",
    content_hash := some "#A", storage_location := some (get_storage_path "#A"),
    file_size := 1, timestamp := 1, metadata := none }

/-- A catalog row: version 2 of path `p`, content digest `#B`. -/
def rowB : Row :=
  { id := 1, file_path := "p", version_number := 2, operation := "modify",
    content_hash := some "#B", storage_location := some (get_storage_path "#B"),
    file_size := 1, timestamp := 2, metadata := none }

/-- State whose live file `p` holds content `A` again while the catalog
already has versions 1 (digest `#A`) and 2 (digest `#B`). -/
def dedupState : State :=
  { files := [("p", "A")], blobs := [], catalog := [rowA, rowB], next_id := 2 }

/-- A catalog row: version 1 (create) of `d/a`. -/
def rowD1 : Row :=
  { id := 0, file_path := "d/a", version_number := 1, operation := "create",
    content_hash := some "#X", storage_location := some (get_storage_path "#X"),
    file_size := 1, timestamp := 1, metadata := none }

/-- A catalog row: version 2 (delete) of `d/a` — no digest, no blob. -/
def rowD2 : Row :=
  { id := 1, file_path := "d/a", version_number := 2, operation := "delete",
    content_hash := none, storage_location := none,
    file_size := 0, timestamp := 2, metadata := none }

/-- State whose only catalog row is the delete record `rowD2`. -/
def delState : State :=
  { files := [], blobs := [], catalog := [rowD2], next_id := 2 }

/-- Five versions of path `p`, all with timestamp 0. -/
def mkP (v : Nat) : Row :=
  { id := v, file_path := "p", version_number := (v : Int),
    operation := "modify", content_hash := some (sha256Hex (toString v)),
    storage_location := none, file_size := 1, timestamp := 0, metadata := none }

/-- State with versions 1..5 of path `p`, all older than any cutoff. -/
def st5 : State :=
  { files := [], blobs := [], catalog := [mkP 1, mkP 2, mkP 3, mkP 4, mkP 5],
    next_id := 5 }

/-- A catalog row: version 1 of `p` at timestamp 5. -/
def rowT1 : Row :=
  { id := 0, file_path := "p", version_number := 1, operation := "create",
    content_hash := some "#A", storage_location := some (get_storage_path "#A"),
    file_size := 1, timestamp := 5, metadata := none }

/-- A catalog row: version 2 of `p`, also at timestamp 5 (a timestamp tie). -/
def rowT2 : Row :=
  { id := 1, file_path := "p", version_number := 2, operation := "modify",
    content_hash := some "#B", storage_location := some (get_storage_path "#B"),
    file_size := 1, timestamp := 5, metadata := none }

/-! ## Helper lemmas -/

/-- A row kept by the `argmaxBy` fold came from the list or from the
starting accumulator. -/
theorem argmaxBy_mem_aux (f : Row → Int) :
    ∀ (l : List Row) (acc : Option Row) (m : Row),
      l.foldl (argmaxStep f) acc = some m → m ∈ l ∨ acc = some m := by
  intro l
  induction l with
  | nil => intro acc m h; exact Or.inr h
  | cons r xs ih =>
    intro acc m h
    rw [List.foldl_cons] at h
    rcases ih (argmaxStep f acc r) m h with hx | hstep
    · exact Or.inl (List.mem_cons_of_mem _ hx)
    · cases acc with
      | none =>
        simp only [argmaxStep] at hstep
        cases hstep
        exact Or.inl (List.mem_cons_self _ _)
      | some a =>
        simp only [argmaxStep] at hstep
        by_cases hlt : f a < f r
        · rw [if_pos hlt] at hstep
          cases hstep
          exact Or.inl (List.mem_cons_self _ _)
        · rw [if_neg hlt] at hstep
          exact Or.inr hstep

/-- A row returned by `argmaxBy` is in the list. -/
theorem argmaxBy_mem {f : Row → Int} {l : List Row} {m : Row}
    (h : argmaxBy f l = some m) : m ∈ l := by
  rcases argmaxBy_mem_aux f l none m h with hx | hbad
  · exact hx
  · cases hbad

/-- The row kept by the `argmaxBy` fold dominates the list and the
starting accumulator. -/
theorem argmaxBy_ge_aux (f : Row → Int) :
    ∀ (l : List Row) (acc : Option Row) (m : Row),
      l.foldl (argmaxStep f) acc = some m →
      (∀ s ∈ l, f s ≤ f m) ∧ (∀ a, acc = some a → f a ≤ f m) := by
  intro l
  induction l with
  | nil =>
    intro acc m h
    simp only [List.foldl_nil] at h
    refine ⟨by simp, ?_⟩
    intro a ha
    rw [ha] at h
    cases h
    exact le_refl _
  | cons r xs ih =>
    intro acc m h
    rw [List.foldl_cons] at h
    obtain ⟨h1, h2⟩ := ih (argmaxStep f acc r) m h
    have hr : f r ≤ f m := by
      cases acc with
      | none => exact h2 r rfl
      | some a =>
        by_cases hlt : f a < f r
        · exact h2 r (by simp [argmaxStep, hlt])
        · exact le_trans (le_of_not_lt hlt) (h2 a (by simp [argmaxStep, hlt]))
    refine ⟨?_, ?_⟩
    · intro s hs
      rcases List.mem_cons.mp hs with hsr | hsx
      · rw [hsr]; exact hr
      · exact h1 s hsx
    · intro a ha
      subst ha
      by_cases hlt : f a < f r
      · exact le_trans (le_of_lt hlt) (h2 r (by simp [argmaxStep, hlt]))
      · exact h2 a (by simp [argmaxStep, hlt])

/-- The row returned by `argmaxBy` attains the maximal key on the list. -/
theorem argmaxBy_ge {f : Row → Int} {l : List Row} {m : Row}
    (h : argmaxBy f l = some m) : ∀ s ∈ l, f s ≤ f m :=
  (argmaxBy_ge_aux f l none m h).1

/-- The idealized digest is injective (collision resistance). -/
theorem sha256Hex_inj {a b : String} (h : sha256Hex a = sha256Hex b) : a = b := by
  have hd := congrArg String.data h
  simp only [sha256Hex, String.data_append] at hd
  exact String.ext (List.append_cancel_left hd)

/-! ## Claim theorems -/

/-- Claim C7: when no catalog row resolves to the selector,
`restore_version` returns the failure response (`restored_version` 0,
message `No version found to restore`) and leaves the whole state —
catalog, blob store and live files — unchanged. -/
theorem restore_no_version_no_side_effects (st : State) (path : String)
    (tv : Option Int) (tts : Option Nat) (now : Nat)
    (h : resolveRow st.catalog path tv tts = none) :
    restore_version st path tv tts now =
      ({ success := false, file_path := path, restored_version := 0,
         message := "No version found to restore" }, st) := by
  simp [restore_version, h]

/-- Witness for C7: on an empty catalog, the implicit selector resolves
to nothing and restore is a side-effect-free failure. -/
theorem restore_no_version_no_side_effects_witness :
    resolveRow initState.catalog "a" none none = none ∧
    restore_version initState "a" none none 0 =
      ({ success := false, file_path := "a", restored_version := 0,
         message := "No version found to restore" }, initState) :=
  ⟨by decide, restore_no_version_no_side_effects initState "a" none none 0 (by decide)⟩

/-- Claim C8: when the resolved row has no retrievable blob (no
`storage_location`, or no blob stored there), `restore_version` fails
with the content-unavailable message, reporting the row's version
number, and the state — live file included — is unchanged; in
particular no `pre_restore` snapshot is recorded. -/
theorem restore_content_unavailable_no_side_effects (st : State) (path : String)
    (tv : Option Int) (tts : Option Nat) (now : Nat) (r : Row)
    (h : resolveRow st.catalog path tv tts = some r)
    (hb : blobContent st r = none) :
    restore_version st path tv tts now =
      ({ success := false, file_path := path, restored_version := r.version_number,
         message := "Version content not found in storage" }, st) := by
  simp [restore_version, h, hb]

/-- Witness for C8: restoring to a delete record (no stored blob) fails
without side effects. -/
theorem restore_content_unavailable_no_side_effects_witness :
    resolveRow delState.catalog "d/a" (some 2) none = some rowD2 ∧
    blobContent delState rowD2 = none ∧
    restore_version delState "d/a" (some 2) none 9 =
      ({ success := false, file_path := "d/a", restored_version := 2,
         message := "Version content not found in storage" }, delState) :=
  ⟨by decide, by decide,
   restore_content_unavailable_no_side_effects delState "d/a" (some 2) none 9 rowD2
     (by decide) (by decide)⟩

/-- Claim C10: a `target_version` of 0 is falsy in Python, so
`restore_version(path, 0)` behaves exactly like a call with no selector:
it resolves the implicit previous-version row, never an exact version 0
and never a no-such-version failure caused by the 0. -/
theorem restore_version_zero_implicit (st : State) (path : String) (now : Nat) :
    restore_version st path (some 0) none now = restore_version st path none none now ∧
    resolveRow st.catalog path (some 0) none = prevResolve st.catalog path :=
  ⟨rfl, rfl⟩

/-- Claim C1 (code bug): the spec's restore scenario — record `X`, record
`Y`, restore to the previous version.  The live file does become `X`
again, but the catalog is completely unchanged: neither a `pre_restore`
row nor a `restore` row is appended, because both internal
`record_version` calls find an existing version with the same digest
and dedup themselves away. -/
theorem restore_appends_no_rows_scenario :
    (restore_version stV2 "a" none none 3).1.success = true ∧
    (restore_version stV2 "a" none none 3).2.files.lookup "a" = some "X" ∧
    (restore_version stV2 "a" none none 3).2.catalog = stV2.catalog ∧
    stV2.catalog.map Row.operation = ["create", "modify"] ∧
    ((restore_version stV2 "a" none none 3).2.catalog.filter
        (fun r => r.operation == "pre_restore" || r.operation == "restore")) = [] := by
  decide

/-- Claim C3 (code bug): the executed time-travel query does not filter
out paths whose latest qualifying row is a delete.  With a create at
t=1 and a delete at t=2, `time_travel` at t=10 still lists the path
(from its delete row), where both the dead SQL string in the function
and the spec exclude it. -/
theorem time_travel_includes_deleted_path :
    (argmaxBy (fun r => r.version_number) (ttQualifying [rowD1, rowD2] "d/" 10))
        = some rowD2 ∧
    rowD2.operation = "delete" ∧
    (time_travel [rowD1, rowD2] "d/" 10).files.map TTEntry.file_path = ["d/a"] ∧
    (time_travel [rowD1, rowD2] "d/" 10).file_count = 1 := by
  decide

/-- Counterexample to C2 as stated: the live content of `p` matches
version 1's digest `#A` while the most recent version 2 has digest
`#B`; the claim says a new row must be inserted, but `record_version`
dedups against the older row and returns its id, inserting nothing. -/
theorem record_version_dedup_nonlatest_cex :
    compute_hash dedupState.files "p" = some "#A" ∧
    (argmaxBy (fun r => r.version_number) (rowsFor dedupState.catalog "p")) = some rowB ∧
    rowB.content_hash = some "#B" ∧
    record_version dedupState "p" "modify" none 5 = (some rowA.id, dedupState) := by
  decide

/-- Counterexample to C4 as stated: with cutoff 1 (all five rows older)
and `min_versions_per_file` 3, the row of version 2 satisfies the
claim's deletion condition (version ≤ 5 − 3) yet survives the sweep —
the code's strict `<` deletes only version 1. -/
theorem cleanup_strict_cutoff_cex :
    (mkP 2).timestamp < 1 ∧
    (mkP 2).version_number ≤ maxVersionFor st5.catalog "p" - 3 ∧
    mkP 2 ∈ (cleanup_old_versions st5 1 0 3).2.catalog ∧
    (cleanup_old_versions st5 1 0 3).1 = 1 := by
  decide

/-- Counterexample to C6 as stated: versions 1 and 2 of `p` share
timestamp 5.  Both rows are possible results of the tie-breaking-free
`ORDER BY timestamp DESC LIMIT 1` query (both are in `tsCandidates`),
and the deterministic refinement actually resolves the selector to
version 1, not the highest version 2 the claim requires. -/
theorem ts_selector_tie_cex :
    rowT1 ∈ tsCandidates [rowT1, rowT2] "p" 5 ∧
    rowT2 ∈ tsCandidates [rowT1, rowT2] "p" 5 ∧
    rowT1.timestamp = rowT2.timestamp ∧
    rowT1.version_number < rowT2.version_number ∧
    resolveRow [rowT1, rowT2] "p" none (some 5) = some rowT1 := by
  decide

/-- Fact: `List.contains` on ids agrees with membership. -/
theorem contains_iff_mem_ids {l : List Nat} {x : Nat} : l.contains x = true ↔ x ∈ l := by
  simp [List.contains]

/-- Claim C2 (amended): `record_version` deduplicates against any
existing version of the path carrying the new digest, not just the
immediately preceding one.  When some version of the path has the new
digest and the operation is soft (not delete/rename), the call returns
the matching version's id — the highest-versioned match — and changes
nothing; a new catalog row, numbered `max + 1`, is inserted exactly
when no version of the path carries the digest. -/
theorem record_version_dedup_any_version
    (st : State) (path op : String) (meta : Option Int) (now : Nat)
    (hsoft : op ≠ "delete" ∧ op ≠ "rename") :
    (∀ i, dedupExisting st.catalog path (compute_hash st.files path) = some i →
        record_version st path op meta now = (some i, st)) ∧
    (dedupExisting st.catalog path (compute_hash st.files path) = none →
      ∃ row, (record_version st path op meta now).2.catalog = st.catalog ++ [row] ∧
        row.version_number = maxVersionFor st.catalog path + 1 ∧
        row.operation = op ∧
        row.content_hash = compute_hash st.files path ∧
        row.timestamp = now) := by
  constructor
  · intro i h
    have hd : (op == "delete") = false := beq_eq_false_iff_ne.mpr hsoft.1
    have hr : (op == "rename") = false := beq_eq_false_iff_ne.mpr hsoft.2
    simp [record_version, h, hd, hr]
  · intro h
    simp only [record_version, h, Option.isSome_none, Bool.false_and, Bool.false_eq_true,
      if_false]
    exact ⟨_, rfl, rfl, rfl, rfl, rfl⟩

/-- Witness for the amended C2: the dedup hit on the non-latest version
1 of `dedupState`, through the theorem's first conjunct. -/
theorem record_version_dedup_any_version_witness :
    ("modify" ≠ "delete" ∧ "modify" ≠ "rename") ∧
    dedupExisting dedupState.catalog "p" (compute_hash dedupState.files "p") = some 0 ∧
    record_version dedupState "p" "modify" none 5 = (some 0, dedupState) :=
  ⟨⟨by decide, by decide⟩, by decide,
   (record_version_dedup_any_version dedupState "p" "modify" none 5
      ⟨by decide, by decide⟩).1 0 (by decide)⟩

/-- Claim C4 (amended): for a catalog with distinct row ids, the sweep
keeps exactly the rows that are not (older than the cutoff AND of
version number strictly below `V - max_versions_per_file`); in
particular every row with version number at least
`V - max_versions_per_file` survives regardless of age, so the most
recent versions are always kept. -/
theorem cleanup_retention_characterization (st : State) (now days : Nat) (m : Int)
    (hids : (st.catalog.map Row.id).Nodup) :
    (∀ r, r ∈ (cleanup_old_versions st now days m).2.catalog ↔
      (r ∈ st.catalog ∧
        ¬(r.timestamp < now - days ∧
          r.version_number < maxVersionFor st.catalog r.file_path - m))) ∧
    (∀ r ∈ st.catalog,
      maxVersionFor st.catalog r.file_path - m ≤ r.version_number →
      r ∈ (cleanup_old_versions st now days m).2.catalog) := by
  have helig : ∀ r, eligibleForDeletion st.catalog (now - days) m r = true ↔
      (r.timestamp < now - days ∧
        r.version_number < maxVersionFor st.catalog r.file_path - m) := by
    intro r
    simp [eligibleForDeletion]
  have hmain : ∀ r, r ∈ (cleanup_old_versions st now days m).2.catalog ↔
      (r ∈ st.catalog ∧
        ¬(r.timestamp < now - days ∧
          r.version_number < maxVersionFor st.catalog r.file_path - m)) := by
    intro r
    unfold cleanup_old_versions
    simp only [List.mem_filter, Bool.not_eq_true']
    constructor
    · rintro ⟨hr, hnc⟩
      refine ⟨hr, fun hcond => ?_⟩
      have hrid : r.id ∈ (st.catalog.filter
          (eligibleForDeletion st.catalog (now - days) m)).map (fun d => d.id) :=
        List.mem_map.mpr ⟨r, List.mem_filter.mpr ⟨hr, (helig r).mpr hcond⟩, rfl⟩
      rw [← contains_iff_mem_ids] at hrid
      rw [hnc] at hrid
      cases hrid
    · rintro ⟨hr, hnc⟩
      refine ⟨hr, ?_⟩
      rw [← Bool.not_eq_true, contains_iff_mem_ids]
      intro hrid
      obtain ⟨d, hd, hdid⟩ := List.mem_map.mp hrid
      obtain ⟨hdc, hde⟩ := List.mem_filter.mp hd
      have hdr : d = r := List.inj_on_of_nodup_map hids hdc hr hdid
      rw [hdr] at hde
      exact hnc ((helig r).mp hde)
  refine ⟨hmain, ?_⟩
  intro r hr hge
  exact (hmain r).mpr ⟨hr, fun hcond => absurd hcond.2 (not_lt.mpr hge)⟩

/-- Witness for the amended C4: version 3 of the five-version catalog
survives the sweep by the characterization. -/
theorem cleanup_retention_characterization_witness :
    (st5.catalog.map Row.id).Nodup ∧
    mkP 3 ∈ st5.catalog ∧
    maxVersionFor st5.catalog (mkP 3).file_path - 3 ≤ (mkP 3).version_number ∧
    mkP 3 ∈ (cleanup_old_versions st5 1 0 3).2.catalog :=
  ⟨by decide, by decide, by decide,
   (cleanup_retention_characterization st5 1 0 3 (by decide)).2 (mkP 3)
     (by decide) (by decide)⟩

/-- Claim C6 (amended): a row returned for the timestamp selector is a
qualifying row of the path attaining the maximal timestamp ≤ the
selector; the query imposes no tie-break among rows sharing that
timestamp (the resolved row is merely one of `tsCandidates`). -/
theorem ts_resolve_latest_timestamp (catalog : List Row) (path : String) (t : Nat) (r : Row)
    (h : tsResolve catalog path t = some r) :
    r ∈ tsCandidates catalog path t ∧
    r ∈ catalog ∧ r.file_path = path ∧ r.timestamp ≤ t ∧
    (∀ s ∈ catalog, s.file_path = path → s.timestamp ≤ t →
      s.timestamp ≤ r.timestamp) := by
  have hmem : r ∈ tsQualifying catalog path t := argmaxBy_mem h
  have hge := argmaxBy_ge h
  obtain ⟨hrc, hcond⟩ := List.mem_filter.mp hmem
  simp only [Bool.and_eq_true, beq_iff_eq, decide_eq_true_eq] at hcond
  have hdom : ∀ s ∈ catalog, s.file_path = path → s.timestamp ≤ t →
      s.timestamp ≤ r.timestamp := by
    intro s hs hsp hst
    have hsq : s ∈ tsQualifying catalog path t := by
      simp [tsQualifying, List.mem_filter, hs, hsp, hst]
    exact_mod_cast hge s hsq
  refine ⟨?_, hrc, hcond.1, hcond.2, hdom⟩
  simp only [tsCandidates, List.mem_filter]
  refine ⟨hmem, ?_⟩
  rw [List.all_eq_true]
  intro s hs
  obtain ⟨hsc, hscond⟩ := List.mem_filter.mp hs
  simp only [Bool.and_eq_true, beq_iff_eq, decide_eq_true_eq] at hscond
  simp only [decide_eq_true_eq]
  exact hdom s hsc hscond.1 hscond.2

/-- Witness for the amended C6: the tie catalog's resolved row satisfies
the characterization. -/
theorem ts_resolve_latest_timestamp_witness :
    tsResolve [rowT1, rowT2] "p" 5 = some rowT1 ∧
    (rowT1 ∈ tsCandidates [rowT1, rowT2] "p" 5 ∧
     rowT1 ∈ [rowT1, rowT2] ∧ rowT1.file_path = "p" ∧ rowT1.timestamp ≤ 5 ∧
     (∀ s ∈ [rowT1, rowT2], s.file_path = "p" → s.timestamp ≤ 5 →
        s.timestamp ≤ rowT1.timestamp)) :=
  ⟨by decide, ts_resolve_latest_timestamp [rowT1, rowT2] "p" 5 rowT1 (by decide)⟩

/-- Computation of `record_version` when the live file holds content `c`
and no version of the path carries its digest: the dedup misses, the
blob is stored if absent, and one catalog row is appended. -/
theorem record_version_fresh (st : State) (path op c : String) (meta : Option Int) (t : Nat)
    (hlook : st.files.lookup path = some c)
    (hdedup : dedupExisting st.catalog path (some (sha256Hex c)) = none) :
    record_version st path op meta t
      = (some st.next_id,
         { files := st.files,
           blobs := if (st.blobs.lookup (get_storage_path (sha256Hex c))).isSome
                    then st.blobs else (get_storage_path (sha256Hex c), c) :: st.blobs,
           catalog := st.catalog ++
             [{ id := st.next_id, file_path := path,
                version_number := maxVersionFor st.catalog path + 1,
                operation := op, content_hash := some (sha256Hex c),
                storage_location := some (get_storage_path (sha256Hex c)),
                file_size := c.length, timestamp := t, metadata := meta }],
           next_id := st.next_id + 1 }) := by
  have hhash : compute_hash st.files path = some (sha256Hex c) := by
    simp [compute_hash, hlook]
  simp only [record_version, hhash, hlook, hdedup, Option.isSome_none, Bool.false_and,
    Bool.false_eq_true, if_false]
  by_cases hbl : (List.lookup (get_storage_path (sha256Hex c)) st.blobs).isSome = true <;>
    simp [hbl]

/-- The dedup filter finds nothing among rows whose contents all differ
from `c`. -/
theorem dedup_filter_expected_nil (path q c : String) :
    ∀ (evs : List (String × Nat)) (k : Nat), c ∉ evs.map Prod.fst →
    (expectedRows path k evs).filter
      (fun r => r.file_path == q && r.content_hash == some (sha256Hex c)) = [] := by
  intro evs
  induction evs with
  | nil => intro k _; rfl
  | cons ev rest ih =>
    intro k hc
    obtain ⟨c1, t1⟩ := ev
    simp only [List.map_cons, List.mem_cons, not_or] at hc
    obtain ⟨hne, hrest⟩ := hc
    have hhash : ((mkRow path k c1 t1).content_hash == some (sha256Hex c)) = false := by
      simp only [mkRow]
      rw [beq_eq_false_iff_ne]
      intro heq
      exact hne (sha256Hex_inj (Option.some.injEq _ _ ▸ heq :
        sha256Hex c1 = sha256Hex c)).symm
    simp only [expectedRows, List.filter_cons, hhash, Bool.and_false,
      Bool.false_eq_true, if_false]
    exact ih (k + 1) hrest

/-- No dedup hit on a catalog of rows whose contents all differ from `c`. -/
theorem dedup_expected_none (path q c : String)
    (evs : List (String × Nat)) (k : Nat) (hc : c ∉ evs.map Prod.fst) :
    dedupExisting (expectedRows path k evs) q (some (sha256Hex c)) = none := by
  simp only [dedupExisting]
  rw [dedup_filter_expected_nil path q c evs k hc]
  rfl

/-- Appending a row of a different path does not change a path's dedup
lookup. -/
theorem dedup_append_other (cat : List Row) (r : Row) (q : String) (h : Option String)
    (hne : r.file_path ≠ q) :
    dedupExisting (cat ++ [r]) q h = dedupExisting cat q h := by
  cases h with
  | none => rfl
  | some hv =>
    have hf : (r.file_path == q) = false := beq_eq_false_iff_ne.mpr hne
    simp only [dedupExisting, List.filter_append, List.filter_cons, hf, Bool.false_and,
      Bool.false_eq_true, if_false, List.filter_nil, List.append_nil]

/-- Every expected row is a row of its path. -/
theorem rowsFor_expected (path : String) :
    ∀ (evs : List (String × Nat)) (k : Nat),
      rowsFor (expectedRows path k evs) path = expectedRows path k evs := by
  intro evs
  induction evs with
  | nil => intro k; rfl
  | cons ev rest ih =>
    intro k
    obtain ⟨c, t⟩ := ev
    simp only [expectedRows, rowsFor, List.filter_cons]
    have hpp : ((mkRow path k c t).file_path == path) = true := by
      simp [mkRow]
    rw [hpp]
    simp only [if_true]
    have := ih (k + 1)
    simp only [rowsFor] at this
    rw [this]

/-- Folding `max` over the expected version numbers. -/
theorem foldl_max_expected (path : String) :
    ∀ (evs : List (String × Nat)) (k : Nat) (v : Int),
      ((expectedRows path k evs).map Row.version_number).foldl max v
        = if evs.length = 0 then v else max v ((k : Int) + evs.length) := by
  intro evs
  induction evs with
  | nil => intro k v; simp [expectedRows]
  | cons ev rest ih =>
    intro k v
    obtain ⟨c, t⟩ := ev
    simp only [expectedRows, List.map_cons, List.foldl_cons, mkRow, List.length_cons]
    rw [ih (k + 1) (max v ((k : Int) + 1))]
    by_cases hr : rest.length = 0
    · simp only [hr, if_true, Nat.add_eq, Nat.zero_add]
      have h1 : ((rest.length : Int) + 1 : Int) = 1 := by rw [hr]; simp
      simp only [Nat.succ_ne_zero, if_false]
      push_cast [hr]
      ring_nf
    · simp only [hr, if_false, Nat.succ_ne_zero]
      have hinner : ((k : Int) + 1) ⊔ (((k + 1 : Nat) : Int) + (rest.length : Int))
          = (k : Int) + ((rest.length + 1 : Nat) : Int) := by
        push_cast
        rw [max_eq_right (by omega)]
        ring
      rw [max_assoc, hinner]

/-- The maximal version number of an expected catalog. -/
theorem maxVersion_expected (path : String) (evs : List (String × Nat)) (k : Nat) :
    maxVersionFor (expectedRows path k evs) path
      = if evs.length = 0 then 0 else (k : Int) + evs.length := by
  cases evs with
  | nil => rfl
  | cons ev rest =>
    obtain ⟨c, t⟩ := ev
    show maxVersionFor (expectedRows path k ((c, t) :: rest)) path = _
    unfold maxVersionFor
    rw [rowsFor_expected]
    simp only [expectedRows, List.map_cons, mkRow, List.length_cons, Nat.succ_ne_zero,
      if_false]
    rw [foldl_max_expected]
    by_cases hr : rest.length = 0
    · simp only [hr, if_true]
      push_cast [hr]
      ring
    · simp only [hr, if_false]
      rw [max_eq_right (by push_cast; omega)]
      push_cast
      ring

/-- Fact: `expectedRows` splits over list append. -/
theorem expectedRows_append (path : String) :
    ∀ (l1 l2 : List (String × Nat)) (k : Nat),
      expectedRows path k (l1 ++ l2)
        = expectedRows path k l1 ++ expectedRows path (k + l1.length) l2 := by
  intro l1
  induction l1 with
  | nil => intro l2 k; simp [expectedRows]
  | cons ev rest ih =>
    intro l2 k
    obtain ⟨c, t⟩ := ev
    calc expectedRows path k ((c, t) :: rest ++ l2)
        = mkRow path k c t :: expectedRows path (k + 1) (rest ++ l2) := rfl
      _ = mkRow path k c t :: (expectedRows path (k + 1) rest
            ++ expectedRows path (k + 1 + rest.length) l2) := by rw [ih]
      _ = (mkRow path k c t :: expectedRows path (k + 1) rest)
            ++ expectedRows path (k + 1 + rest.length) l2 := rfl
      _ = expectedRows path k ((c, t) :: rest)
            ++ expectedRows path (k + ((c, t) :: rest).length) l2 := by
          rw [List.length_cons]
          have harith : k + 1 + rest.length = k + (rest.length + 1) := by omega
          rw [harith]
          rfl

/-- One fresh-content save-and-record step extends the expected catalog
by one row and bumps the id counter. -/
theorem recordStep_expected (path c : String) (t : Nat) (st : State)
    (pre : List (String × Nat))
    (hcat : st.catalog = expectedRows path 0 pre) (hid : st.next_id = pre.length)
    (hc : c ∉ pre.map Prod.fst) :
    (recordStep path st (c, t)).catalog = expectedRows path 0 (pre ++ [(c, t)]) ∧
    (recordStep path st (c, t)).next_id = pre.length + 1 := by
  have hmax : maxVersionFor st.catalog path = (pre.length : Int) := by
    rw [hcat, maxVersion_expected]
    by_cases h0 : pre.length = 0
    · simp [h0]
    · simp [h0]
  have hfresh := record_version_fresh { st with files := (path, c) :: st.files }
    path "modify" c none t (by simp [List.lookup])
    (by
      show dedupExisting st.catalog path (some (sha256Hex c)) = none
      rw [hcat]
      exact dedup_expected_none path path c pre 0 hc)
  unfold recordStep record_after_write
  rw [hfresh]
  dsimp only
  constructor
  · rw [hmax, hid, hcat, expectedRows_append]
    simp [expectedRows, mkRow]
  · rw [hid]

/-- Running fresh-content events extends the expected catalog event by
event. -/
theorem recordMany_expected (path : String) :
    ∀ (evs pre : List (String × Nat)) (st : State),
      st.catalog = expectedRows path 0 pre → st.next_id = pre.length →
      ((pre ++ evs).map Prod.fst).Nodup →
      (recordMany path st evs).catalog = expectedRows path 0 (pre ++ evs) := by
  intro evs
  induction evs with
  | nil =>
    intro pre st hcat _ _
    simpa [recordMany] using hcat
  | cons ev rest ih =>
    intro pre st hcat hid hnd
    obtain ⟨c, t⟩ := ev
    have hcpre : c ∉ pre.map Prod.fst := by
      intro hmem
      rw [List.map_append, List.nodup_append] at hnd
      exact hnd.2.2 hmem (by simp)
    obtain ⟨hstep1, hstep2⟩ := recordStep_expected path c t st pre hcat hid hcpre
    have hnd2 : (((pre ++ [(c, t)]) ++ rest).map Prod.fst).Nodup := by
      rw [List.append_assoc]
      simpa using hnd
    have hrec := ih (pre ++ [(c, t)]) (recordStep path st (c, t)) hstep1
      (by rw [hstep2]; simp) hnd2
    show (List.foldl (recordStep path) st ((c, t) :: rest)).catalog = _
    rw [List.foldl_cons]
    have hassoc : (pre ++ [(c, t)]) ++ rest = pre ++ ((c, t) :: rest) := by
      rw [List.append_assoc]
      rfl
    rw [← hassoc]
    exact hrec

/-- Version numbers of the expected catalog are the consecutive range
starting right after the offset. -/
theorem expected_versions (path : String) :
    ∀ (evs : List (String × Nat)) (k : Nat),
      (expectedRows path k evs).map Row.version_number
        = (List.range' (k + 1) evs.length).map Int.ofNat := by
  intro evs
  induction evs with
  | nil => intro k; rfl
  | cons ev rest ih =>
    intro k
    obtain ⟨c, t⟩ := ev
    simp only [expectedRows, List.map_cons, List.length_cons]
    rw [ih (k + 1)]
    have hr : List.range' (k + 1) (rest.length + 1)
        = (k + 1) :: List.range' (k + 2) rest.length := by
      rw [List.range'_succ]
    rw [hr, List.map_cons]
    congr 1

/-- Every expected row's version number exceeds the offset. -/
theorem expected_version_lb (path : String) :
    ∀ (evs : List (String × Nat)) (k : Nat) (r : Row),
      r ∈ expectedRows path k evs → (k : Int) + 1 ≤ r.version_number := by
  intro evs
  induction evs with
  | nil => intro k r h; simp [expectedRows] at h
  | cons ev rest ih =>
    intro k r h
    obtain ⟨c, t⟩ := ev
    simp only [expectedRows] at h
    rcases List.mem_cons.mp h with h1 | h2
    · rw [h1]; simp [mkRow]
    · have := ih (k + 1) r h2
      push_cast at this ⊢
      omega

/-- Every expected row's timestamp comes from the event list. -/
theorem expected_ts_mem (path : String) :
    ∀ (evs : List (String × Nat)) (k : Nat) (r : Row),
      r ∈ expectedRows path k evs → r.timestamp ∈ evs.map Prod.snd := by
  intro evs
  induction evs with
  | nil => intro k r h; simp [expectedRows] at h
  | cons ev rest ih =>
    intro k r h
    obtain ⟨c, t⟩ := ev
    simp only [expectedRows] at h
    rcases List.mem_cons.mp h with h1 | h2
    · rw [h1]; simp [mkRow]
    · simp only [List.map_cons]
      exact List.mem_cons_of_mem _ (ih (k + 1) r h2)

/-- With nondecreasing event timestamps, version order implies
timestamp order on the expected catalog. -/
theorem expected_ts_mono (path : String) :
    ∀ (evs : List (String × Nat)) (k : Nat),
      List.Pairwise (fun a b => a.2 ≤ b.2) evs →
      ∀ r ∈ expectedRows path k evs, ∀ s ∈ expectedRows path k evs,
        r.version_number ≤ s.version_number → r.timestamp ≤ s.timestamp := by
  intro evs
  induction evs with
  | nil => intro k _ r hr; simp [expectedRows] at hr
  | cons ev rest ih =>
    intro k hpw r hr s hs hvs
    obtain ⟨c, t⟩ := ev
    rw [List.pairwise_cons] at hpw
    obtain ⟨hhead, htail⟩ := hpw
    simp only [expectedRows] at hr hs
    rcases List.mem_cons.mp hr with hr1 | hr2 <;> rcases List.mem_cons.mp hs with hs1 | hs2
    · rw [hr1, hs1]
    · rw [hr1]
      obtain ⟨b, hb, hbts⟩ := List.mem_map.mp (expected_ts_mem path rest (k + 1) s hs2)
      have ht : t ≤ s.timestamp := by rw [← hbts]; exact hhead b hb
      simpa [mkRow] using ht
    · exfalso
      have hlb := expected_version_lb path rest (k + 1) r hr2
      rw [hs1] at hvs
      simp only [mkRow] at hvs
      push_cast at hlb hvs
      omega
    · exact ih (k + 1) htail r hr2 s hs2 hvs

/-- Claim C5: starting from an empty catalog, successive
`record_version` calls with changing content (each save's content fresh
for the path) and nondecreasing call times assign the version numbers
1, 2, ..., n — strictly increasing with no gaps — and version order is
consistent with timestamps: a later version number has a later or
equal timestamp. -/
theorem record_version_monotone (path : String) (evs : List (String × Nat))
    (hnd : (evs.map Prod.fst).Nodup)
    (hts : List.Pairwise (fun a b => a.2 ≤ b.2) evs) :
    ((recordMany path initState evs).catalog.map Row.version_number
        = (List.range' 1 evs.length).map Int.ofNat) ∧
    (∀ r ∈ (recordMany path initState evs).catalog,
     ∀ s ∈ (recordMany path initState evs).catalog,
       r.version_number ≤ s.version_number → r.timestamp ≤ s.timestamp) := by
  have hcat : (recordMany path initState evs).catalog = expectedRows path 0 evs := by
    have h := recordMany_expected path evs [] initState rfl rfl (by simpa using hnd)
    simpa using h
  refine ⟨?_, ?_⟩
  · rw [hcat]
    have h := expected_versions path evs 0
    simpa using h
  · rw [hcat]
    exact expected_ts_mono path evs 0 hts

/-- Witness for C5: two fresh saves yield versions `[1, 2]`. -/
theorem record_version_monotone_witness :
    ((([("a", 1), ("b", 2)] : List (String × Nat)).map Prod.fst).Nodup ∧
     List.Pairwise (fun a b : String × Nat => a.2 ≤ b.2) [("a", 1), ("b", 2)]) ∧
    (recordMany "f" initState [("a", 1), ("b", 2)]).catalog.map Row.version_number
        = (List.range' 1 2).map Int.ofNat :=
  ⟨⟨by decide, by decide⟩,
   (record_version_monotone "f" [("a", 1), ("b", 2)] (by decide) (by decide)).1⟩

/-- Value of `getLast?` on a list with one appended element. -/
theorem getLast?_append_single {α : Type _} (l : List α) (a : α) :
    (l ++ [a]).getLast? = some a :=
  List.getLast?_concat _

/-- Computation of a save-then-record step on fresh content. -/
theorem record_after_write_fresh (st : State) (p op c : String) (t : Nat)
    (hdedup : dedupExisting st.catalog p (some (sha256Hex c)) = none) :
    record_after_write st p op c t
      = { files := (p, c) :: st.files,
          blobs := if (st.blobs.lookup (get_storage_path (sha256Hex c))).isSome
                   then st.blobs else (get_storage_path (sha256Hex c), c) :: st.blobs,
          catalog := st.catalog ++
            [{ id := st.next_id, file_path := p,
               version_number := maxVersionFor st.catalog p + 1,
               operation := op, content_hash := some (sha256Hex c),
               storage_location := some (get_storage_path (sha256Hex c)),
               file_size := c.length, timestamp := t, metadata := none }],
          next_id := st.next_id + 1 } := by
  unfold record_after_write
  rw [record_version_fresh { st with files := (p, c) :: st.files } p op c none t
    (by simp [List.lookup])
    (by show dedupExisting st.catalog p (some (sha256Hex c)) = none; exact hdedup)]

/-- Claim C9: the blob location is a pure function of the content digest
(first two characters as the shard directory, then the full digest).
Recording byte-identical content under two different paths stores the
content at the single shared location — both inserted rows point at it —
and the second record writes nothing new to the blob store. -/
theorem blob_location_shared (st : State) (p1 p2 c : String) (t1 t2 : Nat)
    (hp : p1 ≠ p2)
    (hb : st.blobs.lookup (get_storage_path (sha256Hex c)) = none)
    (h1 : dedupExisting st.catalog p1 (some (sha256Hex c)) = none)
    (h2 : dedupExisting st.catalog p2 (some (sha256Hex c)) = none) :
    (record_after_write (record_after_write st p1 "create" c t1) p2 "create" c t2).blobs
      = (record_after_write st p1 "create" c t1).blobs ∧
    (record_after_write st p1 "create" c t1).blobs.lookup (get_storage_path (sha256Hex c))
      = some c ∧
    ((record_after_write st p1 "create" c t1).catalog.getLast?).map Row.storage_location
      = some (some (get_storage_path (sha256Hex c))) ∧
    ((record_after_write (record_after_write st p1 "create" c t1) p2 "create" c
        t2).catalog.getLast?).map Row.storage_location
      = some (some (get_storage_path (sha256Hex c))) ∧
    get_storage_path (sha256Hex c)
      = storage_root ++ "/" ++ (sha256Hex c).take 2 ++ "/" ++ sha256Hex c := by
  have hstA := record_after_write_fresh st p1 "create" c t1 h1
  rw [hb] at hstA
  simp only [Option.isSome_none, Bool.false_eq_true, if_false] at hstA
  have hdedupB : dedupExisting (record_after_write st p1 "create" c t1).catalog p2
      (some (sha256Hex c)) = none := by
    rw [hstA]
    show dedupExisting (st.catalog ++ [_]) p2 (some (sha256Hex c)) = none
    rw [dedup_append_other st.catalog _ p2 (some (sha256Hex c)) hp]
    exact h2
  have hstB := record_after_write_fresh (record_after_write st p1 "create" c t1)
    p2 "create" c t2 hdedupB
  rw [hstA] at hstB
  simp only [List.lookup, beq_self_eq_true, Option.isSome_some, if_true] at hstB
  refine ⟨?_, ?_, ?_, ?_, rfl⟩
  · rw [hstA, hstB]
  · rw [hstA]
    simp [List.lookup]
  · rw [hstA]
    dsimp only
    rw [getLast?_append_single]
    rfl
  · rw [hstA, hstB]
    dsimp only
    rw [getLast?_append_single]
    rfl

/-- Witness for C9: contents `X` recorded under paths `a` then `b` from
the empty state share one blob location and the second write is a no-op
on the store. -/
theorem blob_location_shared_witness :
    (("a" : String) ≠ "b" ∧
     initState.blobs.lookup (get_storage_path (sha256Hex "X")) = none ∧
     dedupExisting initState.catalog "a" (some (sha256Hex "X")) = none ∧
     dedupExisting initState.catalog "b" (some (sha256Hex "X")) = none) ∧
    ((record_after_write (record_after_write initState "a" "create" "X" 1) "b" "create"
        "X" 2).blobs = (record_after_write initState "a" "create" "X" 1).blobs ∧
     (record_after_write initState "a" "create" "X" 1).blobs.lookup
        (get_storage_path (sha256Hex "X")) = some "X" ∧
     ((record_after_write initState "a" "create" "X" 1).catalog.getLast?).map
        Row.storage_location = some (some (get_storage_path (sha256Hex "X"))) ∧
     ((record_after_write (record_after_write initState "a" "create" "X" 1) "b" "create"
        "X" 2).catalog.getLast?).map Row.storage_location
        = some (some (get_storage_path (sha256Hex "X"))) ∧
     get_storage_path (sha256Hex "X")
        = storage_root ++ "/" ++ (sha256Hex "X").take 2 ++ "/" ++ sha256Hex "X") :=
  ⟨⟨by decide, by decide, by decide, by decide⟩,
   blob_location_shared initState "a" "b" "X" 1 2 (by decide) (by decide) (by decide)
     (by decide)⟩

end InfiniteUndo
